import Mathlib

set_option maxHeartbeats 1000000

/-
Shallow embedding of the syntaxTrees validation engine
(src/syntaxTrees/basics.py and src/syntaxTrees/fields.py).

Values flowing through the engine are already-decoded JSON-like trees.
Python floats are modelled by PyFloat (NaN, the two infinities, and finite
values as rationals; every finite IEEE double is a rational).  Python dicts
are modelled as insertion-ordered association lists with string keys, which
matches the dict/OrderedDict behaviour the code relies on.
-/

inductive PyFloat where
  | nan
  | inf
  | negInf
  | finite (q : ℚ)
deriving DecidableEq

inductive JValue where
  | null
  | bool (b : Bool)
  | int (n : Int)
  | float (f : PyFloat)
  | str (s : String)
  | list (xs : List JValue)
  | dict (entries : List (String × JValue))

/-- The two exception kinds of utilities.py: InvalidParamsException (a
recoverable user-facing error) and ProgrammingError (an internal
consistency error). -/
inductive VErr where
  | invalidInput (msg : String)
  | programmingError (msg : String)
deriving DecidableEq

def VErr.isInvalidInput : VErr → Bool
  | .invalidInput _ => true
  | .programmingError _ => false

def JValue.isNull : JValue → Bool
  | .null => true
  | _ => false

def JValue.isDict : JValue → Bool
  | .dict _ => true
  | _ => false

/-- Python truthiness of a JSON-like value, used by the bug in
MultipleChoiceSelection.helper_for_validation where `any` is applied to a
list of values rather than booleans. -/
def pyTruthy : JValue → Bool
  | .null => false
  | .bool b => b
  | .int n => n != 0
  | .float f => match f with
    | .finite q => q != 0
    | _ => true
  | .str s => s != ""
  | .list xs => !xs.isEmpty
  | .dict xs => !xs.isEmpty

/-- Python equality between a JSON value and a string (used for membership
tests such as `a in self.choices` where choices is a list of strings). -/
def jval_eq_str (a : JValue) (c : String) : Bool :=
  match a with
  | .str s => s = c
  | _ => false

/-! ### Ordered association lists (Python dict / OrderedDict model) -/

/-- First-match lookup in an ordered association list (Python `d[k]` /
`k in d`), generic in the value type. -/
def lookupA {β : Type} (k : String) : List (String × β) → Option β
  | [] => none
  | p :: rest => if p.1 = k then some p.2 else lookupA k rest

/-- Python dict assignment `d[k] = v`: replaces the value in place if the
key exists (keeping its position), otherwise appends the new entry. -/
def setKeyA {β : Type} (d : List (String × β)) (k : String) (v : β) : List (String × β) :=
  if (lookupA k d).isSome then d.map (fun p => if p.1 = k then (k, v) else p)
  else d ++ [(k, v)]

/-- OrderedDict.move_to_end(k, last=False): moves the entry with key k to
the front, keeping its value; no-op if absent (the engine only calls it
when the key is present). -/
def move_to_front (d : List (String × JValue)) (k : String) : List (String × JValue) :=
  match lookupA k d with
  | some v => (k, v) :: d.filter (fun p => p.1 != k)
  | none => d

/-- list.index(k) for a list of strings (used as the sort key in
Node.validate); returns the length when absent, like a total version of
Python's list.index. -/
def idxOfStr : List String → String → Nat
  | [], _ => 0
  | n :: rest, k => if n = k then 0 else idxOfStr rest k + 1

/-! ### A stable sort, modelling Python's `sorted(..., key=...)` (which is
a stable sort; any stable sort is extensionally identical). -/

def insertBy {α : Type} (lt : α → α → Bool) (x : α) : List α → List α
  | [] => [x]
  | y :: ys => if lt y x then y :: insertBy lt x ys else x :: y :: ys

def sortBy {α : Type} (lt : α → α → Bool) : List α → List α
  | [] => []
  | x :: xs => insertBy lt x (sortBy lt xs)

/-! ### Python's int(str) (the subset relevant to IntegerAsString keys) -/

def isPySpace (c : Char) : Bool :=
  c = ' ' || c = '\t' || c = '\n' || c = '\r' || c = '\x0b' || c = '\x0c'

def isPyDigit (c : Char) : Bool :=
  '0' ≤ c && c ≤ '9'

/-- Digit run with single underscores allowed between digits, accumulating
the numeric value; the final flag records whether the previous character
was a digit (a trailing underscore or an empty run is invalid). -/
def digitsCore : List Char → Nat → Bool → Option Nat
  | [], acc, lastDigit => if lastDigit then some acc else none
  | c :: rest, acc, lastDigit =>
    if isPyDigit c then digitsCore rest (acc * 10 + (c.toNat - '0'.toNat)) true
    else if c = '_' && lastDigit then digitsCore rest acc false
    else none

/-- Python's int(s) on a decimal string: optional surrounding whitespace,
optional sign, digits with single underscores between digits. -/
def pyStrToInt (s : String) : Option Int :=
  let cs := ((s.toList.dropWhile isPySpace).reverse.dropWhile isPySpace).reverse
  match cs with
  | '+' :: rest => (digitsCore rest 0 false).map Int.ofNat
  | '-' :: rest => (digitsCore rest 0 false).map (fun n => -(n : Int))
  | _ => (digitsCore cs 0 false).map Int.ofNat

/-! ### stack_objects and its deep copy

The engine passes around a dict stack_objects with at least the slots
node_trace, current_object and immutable_fields (see functions.py); extra
user slots are allowed.  Before each backtracking trial the resolver
copies every slot with json.loads(json.dumps(v)) unless the slot is named
in immutable_fields (basics.py lines 456-460).  A JSON round trip is the
identity on JSON-serializable values, which json_copy makes explicit. -/

structure StackObjects where
  node_trace : List String
  current_object : JValue
  immutable_fields : List String
  extra : List (String × JValue)

/-- node_trace_step.__enter__: push a position marker and set the current
object under scrutiny. -/
def trace_push (so : StackObjects) (s : String) (v : JValue) : StackObjects :=
  { so with node_trace := so.node_trace ++ [s], current_object := v }

/-- node_trace_step.__exit__ on the success path: pop the marker and
restore the previously scrutinized object (on failure nothing is undone,
which in this pure embedding corresponds to the error discarding the
state). -/
def trace_pop (so : StackObjects) (prev : JValue) : StackObjects :=
  { so with node_trace := so.node_trace.dropLast, current_object := prev }

mutual

/-- json.loads(json.dumps(v)): a structural rebuild of the value. -/
def json_copy : JValue → JValue
  | .null => .null
  | .bool b => .bool b
  | .int n => .int n
  | .float f => .float f
  | .str s => .str s
  | .list xs => .list (json_copy_list xs)
  | .dict xs => .dict (json_copy_dict xs)

def json_copy_list : List JValue → List JValue
  | [] => []
  | x :: xs => json_copy x :: json_copy_list xs

def json_copy_dict : List (String × JValue) → List (String × JValue)
  | [] => []
  | p :: xs => (p.1, json_copy p.2) :: json_copy_dict xs

end

/-- The copy made before each backtracking trial (basics.py lines
456-460): every slot is JSON round-tripped except the slots named in
immutable_fields, which are shared as-is. -/
def copy_of_stack_objects (so : StackObjects) : StackObjects :=
  { node_trace :=
      if so.immutable_fields.contains "node_trace" then so.node_trace
      else so.node_trace.map id
  , current_object :=
      if so.immutable_fields.contains "current_object" then so.current_object
      else json_copy so.current_object
  , immutable_fields :=
      if so.immutable_fields.contains "immutable_fields" then so.immutable_fields
      else so.immutable_fields.map id
  , extra := so.extra.map
      (fun p => (p.1, if so.immutable_fields.contains p.1 then p.2 else json_copy p.2)) }

abbrev Kwargs := List (String × JValue)

/-! ### Scalar field validators (src/syntaxTrees/fields.py)

Each helper_for_validation is translated directly.  Python's isinstance
lattice matters: bool is a subclass of int, so isinstance(True, int) and
isinstance(True, (int, float)) hold, while isinstance(1, bool) does not.
Validators that ignore stack_objects and kwargs (all scalar fields do)
are modelled as JValue → Except VErr JValue and lifted where needed. -/

/-- isinstance(val, int): true for Python ints and bools. -/
def isinstance_int : JValue → Bool
  | .int _ => true
  | .bool _ => true
  | _ => false

/-- isinstance(val, bool): only genuine booleans. -/
def isinstance_bool : JValue → Bool
  | .bool _ => true
  | _ => false

/-- The numeric value of a Python int-like value (True == 1, False == 0). -/
def jvalToInt : JValue → Int
  | .int n => n
  | .bool b => if b then 1 else 0
  | _ => 0

/-- Integer.helper_for_validation (fields.py lines 370-377). -/
def integer_helper (mn mx : Option Int) (val : JValue) : Except VErr JValue :=
  if !isinstance_int val then .error (.invalidInput "the value must be an integer")
  else
    match mn with
    | some m =>
      if jvalToInt val < m then .error (.invalidInput "the value is below the minimum")
      else
        match mx with
        | some hi =>
          if hi < jvalToInt val then .error (.invalidInput "the value is above the maximum")
          else .ok val
        | none => .ok val
    | none =>
      match mx with
      | some hi =>
        if hi < jvalToInt val then .error (.invalidInput "the value is above the maximum")
        else .ok val
      | none => .ok val

/-- The numeric value of an int, bool or finite float, as a rational. -/
def jvalToRat : JValue → ℚ
  | .int n => (n : ℚ)
  | .bool b => if b then 1 else 0
  | .float f => match f with
    | .finite q => q
    | _ => 0
  | _ => 0

/-- The min/max comparisons of Float.helper_for_validation, reached only
after the NaN/Infinity checks, so the numeric value is well-defined. -/
def float_bounds (mn mx : Option ℚ) (val : JValue) : Except VErr JValue :=
  match mn with
  | some m =>
    if jvalToRat val < m then .error (.invalidInput "the value is below the minimum")
    else
      match mx with
      | some hi =>
        if hi < jvalToRat val then .error (.invalidInput "the value is above the maximum")
        else .ok val
      | none => .ok val
  | none =>
    match mx with
    | some hi =>
      if hi < jvalToRat val then .error (.invalidInput "the value is above the maximum")
      else .ok val
    | none => .ok val

/-- Float.helper_for_validation (fields.py lines 401-413): isinstance
(int, float) accepts ints, bools and floats; NaN and the infinities are
rejected before any bound is consulted; the value is returned unchanged
(an int stays an int, a bool stays a bool). -/
def float_helper (mn mx : Option ℚ) (val : JValue) : Except VErr JValue :=
  match val with
  | .float f =>
    match f with
    | .nan => .error (.invalidInput "the value must not be NaN.")
    | .inf => .error (.invalidInput "the value must not be infinite.")
    | .negInf => .error (.invalidInput "the value must not be infinite.")
    | .finite q => float_bounds mn mx (.float (.finite q))
  | .int n => float_bounds mn mx (.int n)
  | .bool b => float_bounds mn mx (.bool b)
  | _ => .error (.invalidInput "the value must be an int or a float")

/-- Boolean.helper_for_validation (fields.py lines 432-435). -/
def boolean_helper (val : JValue) : Except VErr JValue :=
  if !isinstance_bool val then .error (.invalidInput "the field must be a boolean value")
  else .ok val

/-- String.helper_for_validation length checks, for a value that is
already a string. -/
def string_len_ok (minLen maxLen : Option Nat) (s : String) : Bool :=
  (match minLen with
   | some lo => decide (lo ≤ s.length)
   | none => true) &&
  (match maxLen with
   | some hi => decide (s.length ≤ hi)
   | none => true)

/-- String.helper_for_validation (fields.py lines 484-493). -/
def string_helper (minLen maxLen : Option Nat) (val : JValue) : Except VErr JValue :=
  match val with
  | .str s =>
    if string_len_ok minLen maxLen s then .ok (.str s)
    else .error (.invalidInput "the value violates the length bounds")
  | _ => .error (.invalidInput "the value must be a string")

def mcs_msg (choices : List String) : String :=
  "The value is not valid. Acceptable values are None, one of the following values, " ++
  "or a list of any number of the following values: " ++ String.intercalate ", " choices

/-- MultipleChoiceSelection.helper_for_validation (fields.py lines
450-469), translated faithfully including the application of any() to the
list of offending elements (which tests Python truthiness of the elements
themselves, not membership). -/
def multiple_choice_selection_helper (choices : List String) (val : JValue) :
    Except VErr JValue :=
  let v1 := match val with
    | .null => JValue.list []
    | v => v
  let v2 := match v1 with
    | .str s => JValue.list [.str s]
    | v => v
  match v2 with
  | .list xs =>
    if (xs.filter (fun a => !choices.any (fun c => jval_eq_str a c))).any pyTruthy then
      .error (.invalidInput (mcs_msg choices))
    else if xs.isEmpty then .ok (.list [])
    else .ok (.list ((choices.filter (fun c => xs.any (fun a => jval_eq_str a c))).map JValue.str))
  | _ => .error (.invalidInput (mcs_msg choices))

/-- Field.validate (basics.py lines 278-301) with allow_null left at its
default (self.null): the null handling wrapper around
helper_for_validation. -/
def field_validate (nullFlag validation_accepts_nulls : Bool)
    (helper : JValue → Except VErr JValue) (val : JValue) : Except VErr JValue :=
  match val with
  | .null =>
    if !nullFlag then .error (.invalidInput "the value is not allowed to be null.")
    else if validation_accepts_nulls then helper .null
    else .ok .null
  | v => helper v

/-- A MultipleChoiceSelection field's full validate: the constructor
forces null=True and validation_accepts_nulls=True. -/
def mcs_validate (choices : List String) (val : JValue) : Except VErr JValue :=
  field_validate true true (multiple_choice_selection_helper choices) val

/-- IntegerAsString.helper_for_validation (fields.py lines 539-551),
applied to a mapping key (always a string; the String superclass check
therefore reduces to the length bounds).  Both an InvalidParamsException
from the superclass and a ValueError from int() are caught and replaced
by the same InvalidParamsException; the canonical result is str(int(s)). -/
def integer_as_string_key (mn mx : Option Int) (minLen maxLen : Option Nat) (s : String) :
    Except VErr String :=
  if string_len_ok minLen maxLen s then
    match pyStrToInt s with
    | some n =>
      match mn with
      | some m =>
        if n < m then .error (.invalidInput "the value is below the minimum")
        else
          match mx with
          | some hi =>
            if hi < n then .error (.invalidInput "the value is above the maximum")
            else .ok (toString n)
          | none => .ok (toString n)
      | none =>
        match mx with
        | some hi =>
          if hi < n then .error (.invalidInput "the value is above the maximum")
          else .ok (toString n)
        | none => .ok (toString n)
    | none => .error (.invalidInput "the value must be a string that can be parsed into an integer")
  else .error (.invalidInput "the value must be a string that can be parsed into an integer")

/-! ### Mapping (fields.py lines 214-256)

The constructor enforces that string_key is a String-kind field, whose
validate ignores stack_objects/kwargs and, on success, returns a string;
the key validator is therefore modelled as String → Except VErr String
(raw JSON mapping keys are always strings).  The content validator is an
arbitrary field validate and may use the context. -/

def could_not_parse_key_msg (k : String) : String :=
  "could not parse the key " ++ k

def duplicate_key_msg (k : String) : String :=
  "after validating and simplifying, the key " ++ k ++ " occurs more than once."

/-- The per-entry loop of Mapping.helper_for_validation (fields.py lines
236-249): validate the key (wrapping an InvalidParamsException), validate
the value inside a trace frame, then fail if the canonical key was
already produced, else record the entry. -/
def mapping_loop (keyV : String → Except VErr String)
    (contentV : JValue → StackObjects → Kwargs → Except VErr (JValue × StackObjects)) :
    List (String × JValue) → List (String × JValue) → StackObjects → Kwargs →
    Except VErr (List (String × JValue) × StackObjects)
  | [], res, so, _ => .ok (res, so)
  | (k, v) :: rest, res, so, kw =>
    match keyV k with
    | .error (.invalidInput m) => .error (.invalidInput (could_not_parse_key_msg k ++ m))
    | .error e => .error e
    | .ok ck =>
      match contentV v (trace_push so ("value for key " ++ k) v) kw with
      | .error e => .error e
      | .ok (w, so2) =>
        let so3 := trace_pop so2 so.current_object
        if (lookupA ck res).isSome then .error (.invalidInput (duplicate_key_msg ck))
        else mapping_loop keyV contentV rest (res ++ [(ck, w)]) so3 kw

/-- The final ordering step of Mapping.helper_for_validation (fields.py
lines 250-256): keys are sorted numerically when the key field is an
IntegerAsString (whose canonical outputs always parse; a parse failure
would be a Python ValueError, i.e. an internal error), lexically
otherwise. -/
def mapping_sort (intKey : Bool) (res : List (String × JValue)) :
    Except VErr (List (String × JValue)) :=
  if intKey then
    match res.mapM (fun kv => (pyStrToInt kv.1).map (fun n => (n, kv))) with
    | some keyed => .ok ((sortBy (fun a b => decide (a.1 < b.1)) keyed).map Prod.snd)
    | none => .error (.programmingError "a mapping key could not be parsed as an integer")
  else .ok (sortBy (fun a b => decide (a.1 < b.1)) res)

/-- Mapping.helper_for_validation (fields.py lines 230-256). -/
def mapping_helper (intKey : Bool) (keyV : String → Except VErr String)
    (contentV : JValue → StackObjects → Kwargs → Except VErr (JValue × StackObjects))
    (val : JValue) (so : StackObjects) (kw : Kwargs) :
    Except VErr (JValue × StackObjects) :=
  match val with
  | .dict entries =>
    match mapping_loop keyV contentV entries [] so kw with
    | .error e => .error e
    | .ok (res, so2) =>
      match mapping_sort intKey res with
      | .error e => .error e
      | .ok sorted => .ok (.dict sorted, so2)
  | _ => .error (.invalidInput "the value must be a dictionary")

/-! ### Node.validate (basics.py lines 92-159)

A node type is modelled by the data Node.validate actually consults: the
merged ordered field list from _value_to_node_fields, the
quietly_drop_superfluous_fields list, whether Meta has a choice_type, and
the optional shortform.  Each field contributes the attributes of the
Field base class used by Node.validate plus its validate function; the
default is the materialized default value (Field.default, with a callable
default replaced by its pure result, see get_the_default_value). -/

structure FieldSpec where
  dont_auto_validate : Bool
  required : Bool
  null : Bool
  dont_print_default : Bool
  defaultVal : JValue
  validateFn : JValue → StackObjects → Kwargs → Except VErr (JValue × StackObjects)

structure ShortformSpec where
  field_validate_fn : JValue → Except VErr JValue
  conversion : JValue → JValue

structure NodeSpec where
  name : String
  fields : List (String × FieldSpec)
  quietly_drop_superfluous_fields : List String
  has_choice_type : Bool
  shortform : Option ShortformSpec

def invalid_field_name_msg (k : String) (names : List String) : String :=
  k ++ " is not a valid field name. Valid field names are: " ++ String.intercalate ", " names

def missing_required_field_msg (n : String) : String :=
  "missing value for the required field " ++ n

/-- The unknown-key scan of Node.validate (basics.py lines 118-128). -/
def check_keys (names quiet : List String) (hasChoiceType : Bool) :
    List String → Except VErr Unit
  | [] => .ok ()
  | k :: rest =>
    if quiet.contains k then check_keys names quiet hasChoiceType rest
    else if k = "type" && hasChoiceType then check_keys names quiet hasChoiceType rest
    else if names.contains k then check_keys names quiet hasChoiceType rest
    else .error (.invalidInput (invalid_field_name_msg k names))

/-- The null check of basics.py lines 152-156 for a recorded field
value: it only applies to fields without dont_print_default, rejecting a
recorded null when the field does not allow null. -/
def field_null_check (f : FieldSpec) (w : JValue) : Bool :=
  !f.dont_print_default && w.isNull && !f.null

/-- The same null check as applied to an emitted default value (the
branch where the field was absent and the default was just recorded). -/
def default_null_check (f : FieldSpec) : Bool :=
  f.defaultVal.isNull && !f.null

/-- One iteration of the field loop of Node.validate (basics.py lines
132-156): skip dont_auto_validate fields entirely; validate a present
value inside a trace frame; fill the default for an absent optional field
unless dont_print_default; and apply the null check to the recorded value
when the field is not dont_print_default. -/
def process_field (n : String) (f : FieldSpec) (entries : List (String × JValue))
    (so : StackObjects) (kw : Kwargs) :
    Except VErr (Option (String × JValue) × StackObjects) :=
  if f.dont_auto_validate then .ok (none, so)
  else
    match lookupA n entries with
    | some v =>
      match f.validateFn v (trace_push so n v) kw with
      | .error e => .error e
      | .ok (w, so2) =>
        let so3 := trace_pop so2 so.current_object
        if field_null_check f w then
          .error (.invalidInput "the value must not be null")
        else .ok (some (n, w), so3)
    | none =>
      if f.required then .error (.invalidInput (missing_required_field_msg n))
      else if !f.dont_print_default then
        if default_null_check f then
          .error (.invalidInput "the value must not be null")
        else .ok (some (n, f.defaultVal), so)
      else .ok (none, so)

/-- The field loop of Node.validate, producing res_dict in iteration
order (a Python dict preserves insertion order). -/
def validate_fields (fields : List (String × FieldSpec)) (entries : List (String × JValue))
    (so : StackObjects) (kw : Kwargs) :
    Except VErr (List (String × JValue) × StackObjects)  :=
  match fields with
  | [] => .ok ([], so)
  | (n, f) :: rest =>
    match process_field n f entries so kw with
    | .error e => .error e
    | .ok (o, so1) =>
      match validate_fields rest entries so1 kw with
      | .error e => .error e
      | .ok (res, so2) => .ok (o.toList ++ res, so2)

/-- The body of Node.validate on a dict: key check, field loop, then the
final OrderedDict(sorted(..., key=ordered_field_names.index)). -/
def node_validate_dict (spec : NodeSpec) (entries : List (String × JValue))
    (so : StackObjects) (kw : Kwargs) : Except VErr (JValue × StackObjects) :=
  let names := spec.fields.map Prod.fst
  match check_keys names spec.quietly_drop_superfluous_fields spec.has_choice_type
      (entries.map Prod.fst) with
  | .error e => .error e
  | .ok _ =>
    match validate_fields spec.fields entries so kw with
    | .error e => .error e
    | .ok (res, so2) =>
      .ok (.dict (sortBy (fun a b => decide (idxOfStr names a.1 < idxOfStr names b.1)) res), so2)

/-- The non-dict path of Node.validate (basics.py lines 104-114):
shortform_field.validate on the raw value, then shortform_conversion,
which must yield a dict on pain of a ProgrammingError; without a declared
shortform a non-dict value is an InvalidInput.  The shortform block runs
inside a node_trace_step whose success path restores the trace. -/
def node_validate_shortform (spec : NodeSpec) (v : JValue) (so : StackObjects) (kw : Kwargs) :
    Except VErr (JValue × StackObjects) :=
  match spec.shortform with
  | some sf =>
    let so1 := trace_push so "conversion from shortform" v
    match sf.field_validate_fn v with
    | .error e => .error e
    | .ok _ =>
      match sf.conversion v with
      | .dict entries => node_validate_dict spec entries (trace_pop so1 so.current_object) kw
      | _ => .error (.programmingError "the shortform conversion did not return a dict")
  | none => .error (.invalidInput "the value must be a dictionary")

/-- Node.validate (basics.py lines 92-159): shortform handling for a
non-dict value, then the dict body. -/
def node_validate (spec : NodeSpec) (obj : JValue) (so : StackObjects) (kw : Kwargs) :
    Except VErr (JValue × StackObjects) :=
  match obj with
  | .dict entries => node_validate_dict spec entries so kw
  | v => node_validate_shortform spec v so kw

/-! ### Field-inheritance merge (NodeSubclassDeclarationWatcher.__init__,
basics.py lines 42-74)

A class body is a list of (attribute name, declared Field) in declaration
order; a Field is represented by its order_of_creation (the global
counter incremented for every Field() constructed).  The walk goes over
the reversed MRO (most general ancestor first), records each class's own
fields into a dict with collision checking against the final class's
Meta.overwrites_existing_fields, and finally sorts the surviving entries
by the surviving Field object's order_of_creation. -/

/-- Whether the attribute name carries the trailing underscore used to
declare a field whose name clashes with a Python keyword. -/
def has_trailing_underscore (k : String) : Bool :=
  match k.toList.getLast? with
  | some c => c = '_'
  | none => false

def strip_trailing_underscore (k : String) : String :=
  if has_trailing_underscore k then String.mk k.toList.dropLast else k

def field_already_defined_msg (k : String) : String :=
  "field " ++ k ++ " is already defined."

/-- Record one ancestor's declared fields into the working dict
(basics.py lines 58-70). -/
def add_class_fields (ov : List String) : List (String × Nat) → List (String × Nat) →
    Except VErr (List (String × Nat))
  | acc, [] => .ok acc
  | acc, (k0, v) :: rest =>
    let k := strip_trailing_underscore k0
    if (lookupA k acc).isSome && !ov.contains k then
      .error (.programmingError (field_already_defined_msg k))
    else add_class_fields ov (setKeyA acc k v) rest

/-- The full merge: walk ancestors most-general-first, then sort by the
surviving field objects' order_of_creation (basics.py lines 46-74). -/
def node_subclass_field_merge (ancestors : List (List (String × Nat))) (ov : List String) :
    Except VErr (List (String × Nat)) :=
  match ancestors.foldlM (fun acc cls => add_class_fields ov acc cls) [] with
  | .error e => .error e
  | .ok acc => .ok (sortBy (fun a b => decide (a.2 < b.2)) acc)

/-! ### execute_function_on_node with function='validate'
(basics.py lines 368-500)

A candidate node is the data the resolver consults: Meta.name,
Meta.choice_type (when the node belongs to a choice group),
Meta.required_additional_arguments_for_validation, the optional
shortform, and the node's validate entry point (either the base
Node.validate, i.e. node_validate of some NodeSpec, or a subclass
override).  The candidate list is [the value's node] for a 'value'
reference and the group's members for a 'choice' reference. -/

structure Candidate where
  name : String
  choiceType : Option String
  requiredArgs : List String
  shortform : Option ShortformSpec
  validate : JValue → StackObjects → Kwargs → Except VErr (JValue × StackObjects)

def empty_dict_msg (names : List String) : String :=
  "submitted an empty dictionary. Valid types are: " ++ String.intercalate ", " names

def kwargs_mismatch_msg (name : String) : String :=
  "the kwargs do not match for node " ++ name

def invalid_type_msg (tags : List String) : String :=
  "the type is not valid. Valid types are: " ++ String.intercalate ", " tags

def no_valid_parse_msg (tags : List String) : String :=
  "no valid way to parse this value could be found. " ++
  "Please manually specify a type field for a more detailed error message. " ++
  "Possible types are: " ++ String.intercalate ", " tags

def ambiguous_msg (tags : List String) : String :=
  "the value is ambiguous and matched several possible types. " ++
  "Please specify the type field manually with one of the valid values: " ++
  String.intercalate ", " tags

def is_empty_dict : JValue → Bool
  | .dict [] => true
  | _ => false

/-- Collect the values of an Option-valued function over a list, failing
when any application fails (used below for reading every group member's
choice_type; registration guarantees these are never missing, and a
missing one would be a Python AttributeError, i.e. an internal error). -/
def mapOptM {α β : Type} (f : α → Option β) : List α → Option (List β)
  | [] => some []
  | x :: xs =>
    match f x with
    | some y => (mapOptM f xs).map (y :: ·)
    | none => none

/-- The kwargs format required for validation (basics.py lines 396-397):
same number of entries and every required argument present. -/
def kwargs_ok (c : Candidate) (kw : Kwargs) : Bool :=
  c.requiredArgs.length == kw.length &&
  c.requiredArgs.all (fun k => (lookupA k kw).isSome)

/-- The kwargs check loop (basics.py lines 393-400), raising a
ProgrammingError at the first candidate whose required arguments do not
match. -/
def check_kwargs : List Candidate → Kwargs → Except VErr Unit
  | [], _ => .ok ()
  | c :: rest, kw =>
    if kwargs_ok c kw then check_kwargs rest kw
    else .error (.programmingError (kwargs_mismatch_msg c.name))

/-- Candidate selection (basics.py lines 401-412): a single candidate is
picked directly; otherwise a dict carrying a 'type' key selects the group
member with that discriminator tag (an unknown tag is an InvalidInput);
otherwise no candidate is selected yet. -/
def select_candidate (cands : List Candidate) (obj : JValue) :
    Except VErr (Option Candidate) :=
  match cands with
  | [c] => .ok (some c)
  | _ =>
    match obj with
    | .dict entries =>
      match lookupA "type" entries with
      | some t =>
        match cands.find? (fun c =>
            match c.choiceType with
            | some tg => jval_eq_str t tg
            | none => false) with
        | some c => .ok (some c)
        | none => .error (.invalidInput (invalid_type_msg (cands.filterMap Candidate.choiceType)))
      | none => .ok none
    | _ => .ok none

/-- One backtracking trial (the try body, basics.py lines 452-476): copy
the mutable context slots, redo the shortform safety conversion for a
non-dict value (a non-dict conversion result is a ProgrammingError, which
the surrounding except clause does not catch), then run the candidate's
validate on the copy. -/
def try_candidate (c : Candidate) (obj : JValue) (so : StackObjects) (kw : Kwargs) :
    Except VErr (JValue × StackObjects) :=
  let cso := copy_of_stack_objects so
  match obj with
  | .dict entries => c.validate (.dict entries) cso kw
  | v =>
    match c.shortform with
    | some sf =>
      match sf.field_validate_fn v with
      | .error e => .error e
      | .ok _ =>
        match sf.conversion v with
        | .dict entries => c.validate (.dict entries) cso kw
        | _ => .error (.programmingError "the shortform conversion did not return a dict")
    | none => .error (.invalidInput "the value must be a dictionary")

/-- The backtracking loop (basics.py lines 445-478): every candidate is
tried against a fresh copy of the caller's stack_objects; an
InvalidParamsException is swallowed, every other exception propagates;
successes collect the candidate, its result and its context copy. -/
def run_candidates (cands : List Candidate) (obj : JValue) (so : StackObjects) (kw : Kwargs) :
    Except VErr (List (Candidate × JValue × StackObjects)) :=
  match cands with
  | [] => .ok []
  | c :: rest =>
    match try_candidate c obj so kw with
    | .ok (r, cso) =>
      match run_candidates rest obj so kw with
      | .error e => .error e
      | .ok l => .ok ((c, r, cso) :: l)
    | .error (.invalidInput _) => run_candidates rest obj so kw
    | .error (.programmingError m) => .error (.programmingError m)

/-- res_obj['type'] = tag; res_obj.move_to_end('type', last=False)
(basics.py lines 485-486). -/
def set_key_and_move_type_to_front (entries : List (String × JValue)) (tag : String) :
    List (String × JValue) :=
  move_to_front (setKeyA entries "type" (.str tag)) "type"

/-- Resolution of the collected backtracking successes (basics.py lines
479-500): exactly one success stamps the tag first and adopts that
trial's context copy; zero successes and multiple successes are
InvalidInput errors naming the candidate tags / the matching tags.
(A group member without a choice_type would be a Python AttributeError,
i.e. an internal error; registration guarantees every group member has
one.) -/
def backtrack_validate (cands : List Candidate) (obj : JValue) (so : StackObjects)
    (kw : Kwargs) : Except VErr (JValue × StackObjects) :=
  match run_candidates cands obj so kw with
  | .error e => .error e
  | .ok successes =>
    match successes with
    | [(c, res, cso)] =>
      match c.choiceType with
      | some tag =>
        match res with
        | .dict rs => .ok (.dict (set_key_and_move_type_to_front rs tag), cso)
        | _ => .error (.programmingError "validation result is not a dict")
      | none => .error (.programmingError "the selected Node has no choice_type")
    | [] =>
      match mapOptM Candidate.choiceType cands with
      | some tags => .error (.invalidInput (no_valid_parse_msg tags))
      | none => .error (.programmingError "a candidate has no choice_type")
    | _ =>
      match mapOptM (fun s => s.1.choiceType) successes with
      | some tags => .error (.invalidInput (ambiguous_msg tags))
      | none => .error (.programmingError "a candidate has no choice_type")

/-- The post-validation type stamping of the direct-dispatch path
(basics.py lines 413-434): nothing for a node outside any group; for a
group member, a consistency check of a provided 'type' against the
selected tag, then either a membership check of an already-present 'type'
in the result or the insertion of the tag, and finally move_to_end to put
'type' first.  (A non-dict result would make Python's membership test
fail with a TypeError, an internal error.) -/
def dispatch_selected (cands : List Candidate) (c : Candidate) (obj : JValue)
    (so : StackObjects) (kw : Kwargs) : Except VErr (JValue × StackObjects) :=
  match c.validate obj so kw with
  | .error e => .error e
  | .ok (res, so2) =>
    match c.choiceType with
    | none => .ok (res, so2)
    | some tag =>
      let typeMismatch : Bool :=
        match obj with
        | .dict entries =>
          match lookupA "type" entries with
          | some t => !jval_eq_str t tag
          | none => false
        | _ => false
      if typeMismatch then
        .error (.programmingError "the type was already given but does not match the selected Node")
      else
        match res with
        | .dict rs =>
          match lookupA "type" rs with
          | some tv =>
            if (cands.filterMap Candidate.choiceType).any (fun tg => jval_eq_str tv tg) then
              .ok (.dict (move_to_front rs "type"), so2)
            else .error (.programmingError "after validating the type is not one of the requested ones")
          | none => .ok (.dict (move_to_front (rs ++ [("type", .str tag)]) "type"), so2)
        | _ => .error (.programmingError "validation result is not a dict")

/-- execute_function_on_node (basics.py lines 368-500) restricted to
function='validate' (any other function never backtracks and raises a
ProgrammingError when the choice is unresolved).  The candidate list is
the parameter; the empty-dict shortcut comes first, then the kwargs
check, then direct dispatch or backtracking disambiguation. -/
def execute_function_on_node_validate (cands : List Candidate) (obj : JValue)
    (so : StackObjects) (kw : Kwargs) : Except VErr (JValue × StackObjects) :=
  if decide (1 < cands.length) && is_empty_dict obj then
    .error (.invalidInput (empty_dict_msg (cands.map Candidate.name)))
  else
    match check_kwargs cands kw with
    | .error e => .error e
    | .ok _ =>
      match select_candidate cands obj with
      | .error e => .error e
      | .ok (some c) => dispatch_selected cands c obj so kw
      | .ok none => backtrack_validate cands obj so kw

/-! ### Derived notions used by the theorems -/

/-- A field validate function is stable when a value it has produced
validates again, from any context state, to the same value.  All scalar
fields of the library have this property; it is the key premise of the
idempotence of Node.validate. -/
def StableField
    (F : JValue → StackObjects → Kwargs → Except VErr (JValue × StackObjects))
    (kw : Kwargs) : Prop :=
  ∀ v so w so', F v so kw = .ok (w, so') → ∀ so2, ∃ so3, F w so2 kw = .ok (w, so3)

/-- A field's materialized default is a fixed point of its own validate
function.  Node.validate emits defaults without validating them, so this
is exactly what re-validation of a canonical tree needs. -/
def DefaultFix (f : FieldSpec) (kw : Kwargs) : Prop :=
  ∀ so2, ∃ so3, f.validateFn f.defaultVal so2 kw = .ok (f.defaultVal, so3)

/-- Lift a context-free helper (all scalar fields ignore stack_objects
and kwargs) to the uniform field validate signature. -/
def lift_helper (h : JValue → Except VErr JValue) :
    JValue → StackObjects → Kwargs → Except VErr (JValue × StackObjects) :=
  fun v so _ =>
    match h v with
    | .ok w => .ok (w, so)
    | .error e => .error e

/-! ### Concrete instances used by counterexamples and witnesses -/

def so0 : StackObjects :=
  { node_trace := [], current_object := .null, immutable_fields := [], extra := [] }

/-- An unbounded Integer field validate, lifted. -/
def int_lift : JValue → StackObjects → Kwargs → Except VErr (JValue × StackObjects) :=
  lift_helper (integer_helper none none)

def int_required_field : FieldSpec :=
  { dont_auto_validate := false, required := true, null := false,
    dont_print_default := false, defaultVal := .null, validateFn := int_lift }

def int_optional_field : FieldSpec :=
  { dont_auto_validate := false, required := false, null := false,
    dont_print_default := false, defaultVal := .int 0, validateFn := int_lift }

/-- A node with no declared fields: every key check passes on an empty
dict, so it validates the empty dict successfully (a node all of whose
fields are optional behaves the same way). -/
def spec_no_fields : NodeSpec :=
  { name := "empty_ok", fields := [], quietly_drop_superfluous_fields := [],
    has_choice_type := true, shortform := none }

/-- A node with one required integer field; it rejects the empty dict. -/
def spec_needs_val : NodeSpec :=
  { name := "needs_val", fields := [("val", int_required_field)],
    quietly_drop_superfluous_fields := [], has_choice_type := true, shortform := none }

def cand_no_fields : Candidate :=
  { name := "empty_ok", choiceType := some "empty_ok", requiredArgs := [],
    shortform := none, validate := node_validate spec_no_fields }

def cand_needs_val : Candidate :=
  { name := "needs_val", choiceType := some "needs_val", requiredArgs := [],
    shortform := none, validate := node_validate spec_needs_val }

/-- A candidate whose validation always fails with an
InvalidParamsException (used to exhibit the frame property of a failed
backtracking trial). -/
def cand_always_fails : Candidate :=
  { name := "always_fails", choiceType := some "always_fails", requiredArgs := [],
    shortform := none, validate := fun _ _ _ => .error (.invalidInput "does not fit") }

/-- A two-field node used to exhibit the field-order invariant. -/
def spec_ab : NodeSpec :=
  { name := "ab", fields := [("a", int_required_field), ("b", int_optional_field)],
    quietly_drop_superfluous_fields := [], has_choice_type := true, shortform := none }

def cand_ab : Candidate :=
  { name := "ab", choiceType := some "t_ab", requiredArgs := [],
    shortform := none, validate := node_validate spec_ab }

/-- A MultipleChoiceSelection field left at its constructor defaults
(null=True, validation_accepts_nulls=True, default=None), as any
`x = MultipleChoiceSelection([...])` declaration produces. -/
def mcs_field : FieldSpec :=
  { dont_auto_validate := false, required := false, null := true,
    dont_print_default := false, defaultVal := .null,
    validateFn := lift_helper (mcs_validate ["a"]) }

def spec_mcs : NodeSpec :=
  { name := "with_mcs", fields := [("x", mcs_field)],
    quietly_drop_superfluous_fields := [], has_choice_type := false, shortform := none }

/-- A node with one required integer field keyed "a" (our idempotence
witness). -/
def spec_int1 : NodeSpec :=
  { name := "int1", fields := [("a", int_required_field)],
    quietly_drop_superfluous_fields := [], has_choice_type := false, shortform := none }

/-- A node whose shortform conversion returns a non-dict (its declared
shortform field accepts anything). -/
def spec_bad_shortform : NodeSpec :=
  { name := "bad_shortform", fields := [],
    quietly_drop_superfluous_fields := [], has_choice_type := false,
    shortform := some { field_validate_fn := fun v => .ok v, conversion := fun _ => .int 7 } }

/-- A candidate whose validate entry point is the base Node.validate of a
given NodeSpec and whose Meta carries the given choice_type, as produced
by registering a group member that does not override validate. -/
def mk_node_candidate (spec : NodeSpec) (tag : String) (reqArgs : List String) : Candidate :=
  { name := spec.name, choiceType := some tag, requiredArgs := reqArgs,
    shortform := spec.shortform, validate := node_validate spec }

/-! ### Basic lemmas -/

mutual

theorem json_copy_id : ∀ v : JValue, json_copy v = v
  | .null => rfl
  | .bool _ => rfl
  | .int _ => rfl
  | .float _ => rfl
  | .str _ => rfl
  | .list xs => by rw [json_copy, json_copy_list_id xs]
  | .dict xs => by rw [json_copy, json_copy_dict_id xs]

theorem json_copy_list_id : ∀ xs : List JValue, json_copy_list xs = xs
  | [] => rfl
  | x :: xs => by rw [json_copy_list, json_copy_id x, json_copy_list_id xs]

theorem json_copy_dict_id : ∀ xs : List (String × JValue), json_copy_dict xs = xs
  | [] => rfl
  | p :: xs => by rw [json_copy_dict, json_copy_id p.2, json_copy_dict_id xs]

end

/-- In this pure embedding a JSON round trip of every slot is the
identity, so the trial copy agrees with the caller's context on every
slot (in Python the non-immutable slots additionally become independent
objects, which is unobservable for values). -/
theorem copy_of_stack_objects_eq (so : StackObjects) : copy_of_stack_objects so = so := by
  cases so with
  | mk nt co imf ex =>
    simp [copy_of_stack_objects, json_copy_id, List.map_id]

theorem trace_pop_push (so : StackObjects) (s : String) (v : JValue) :
    trace_pop (trace_push so s v) so.current_object = so := by
  cases so with
  | mk nt co imf ex => simp [trace_push, trace_pop]

/-! ### Lemmas about the stable sort -/

theorem insertBy_perm {α : Type} (lt : α → α → Bool) (x : α) (l : List α) :
    (insertBy lt x l).Perm (x :: l) := by
  induction l with
  | nil => simp [insertBy]
  | cons y ys ih =>
    simp only [insertBy]
    by_cases h : lt y x = true
    · simp only [h, if_true]
      exact (ih.cons y).trans (List.Perm.swap x y ys)
    · simp [h]

theorem sortBy_perm {α : Type} (lt : α → α → Bool) (l : List α) :
    (sortBy lt l).Perm l := by
  induction l with
  | nil => simp [sortBy]
  | cons x xs ih =>
    simp only [sortBy]
    exact (insertBy_perm lt x (sortBy lt xs)).trans (ih.cons x)

theorem mem_insertBy {α : Type} {lt : α → α → Bool} {x a : α} {l : List α}
    (h : a ∈ insertBy lt x l) : a = x ∨ a ∈ l := by
  have := (insertBy_perm lt x l).mem_iff.mp h
  simpa using this

/-- A list already strictly sorted by the comparison is left unchanged by
the stable sort. -/
theorem sortBy_eq_self {α : Type} (lt : α → α → Bool)
    (hasym : ∀ a b, lt a b = true → lt b a = false) :
    ∀ l : List α, l.Pairwise (fun a b => lt a b = true) → sortBy lt l = l := by
  intro l hl
  induction l with
  | nil => rfl
  | cons x xs ih =>
    have hx : ∀ b ∈ xs, lt x b = true := fun b hb => List.rel_of_pairwise_cons hl hb
    have ht := hl.of_cons
    simp only [sortBy, ih ht]
    cases xs with
    | nil => rfl
    | cons y ys =>
      have : lt y x = false := hasym x y (hx y (by simp))
      simp [insertBy, this]

theorem insertBy_pairwise_le {α : Type} (key : α → Nat) (x : α) :
    ∀ l : List α, l.Pairwise (fun a b => key a ≤ key b) →
    (insertBy (fun a b => decide (key a < key b)) x l).Pairwise (fun a b => key a ≤ key b) := by
  intro l hl
  induction l with
  | nil => simp [insertBy]
  | cons y ys ih =>
    have hy : ∀ b ∈ ys, key y ≤ key b := fun b hb => List.rel_of_pairwise_cons hl hb
    simp only [insertBy]
    by_cases h : key y < key x
    · simp only [decide_eq_true_eq, h, if_true]
      refine List.Pairwise.cons ?_ (ih hl.of_cons)
      intro b hb
      rcases mem_insertBy hb with rfl | hb
      · exact Nat.le_of_lt h
      · exact hy b hb
    · simp only [decide_eq_true_eq, h, if_false]
      refine List.Pairwise.cons ?_ hl
      intro b hb
      have hxy : key x ≤ key y := Nat.le_of_not_lt h
      rcases List.mem_cons.mp hb with rfl | hb
      · exact hxy
      · exact hxy.trans (hy b hb)

theorem sortBy_pairwise_le {α : Type} (key : α → Nat) :
    ∀ l : List α,
    (sortBy (fun a b => decide (key a < key b)) l).Pairwise (fun a b => key a ≤ key b) := by
  intro l
  induction l with
  | nil => simp [sortBy]
  | cons x xs ih => exact insertBy_pairwise_le key x _ ih

/-! ### Lemmas about association-list lookup -/

theorem lookupA_eq_none_iff {β : Type} (k : String) :
    ∀ l : List (String × β), lookupA k l = none ↔ k ∉ l.map Prod.fst := by
  intro l
  induction l with
  | nil => simp [lookupA]
  | cons p rest ih =>
    by_cases h : p.1 = k
    · simp [lookupA, h]
    · simp [lookupA, h, ih, Ne.symm h]

theorem lookupA_mem_of_eq_some {β : Type} {k : String} {v : β} :
    ∀ {l : List (String × β)}, lookupA k l = some v → (k, v) ∈ l := by
  intro l
  induction l with
  | nil => simp [lookupA]
  | cons p rest ih =>
    obtain ⟨pk, pv⟩ := p
    intro h
    by_cases hp : pk = k
    · subst hp
      simp only [lookupA, if_true] at h
      rw [Option.some_inj] at h
      subst h
      exact List.mem_cons_self _ _
    · simp only [lookupA, hp, if_false] at h
      exact List.mem_cons_of_mem _ (ih h)

theorem lookupA_eq_some_of_mem_nodup {β : Type} {k : String} {v : β} :
    ∀ {l : List (String × β)}, (l.map Prod.fst).Nodup → (k, v) ∈ l → lookupA k l = some v := by
  intro l
  induction l with
  | nil => simp
  | cons p rest ih =>
    intro hn hm
    rcases List.mem_cons.mp hm with rfl | hm
    · simp [lookupA]
    · have hp : p.1 ≠ k := by
        intro hk
        have : k ∈ rest.map Prod.fst := List.mem_map_of_mem Prod.fst hm
        rw [List.map_cons, List.nodup_cons, hk] at hn
        exact hn.1 this
      simp only [lookupA, hp, if_false]
      exact ih (by rw [List.map_cons, List.nodup_cons] at hn; exact hn.2) hm

theorem lookupA_perm {β : Type} {l l' : List (String × β)} (h : l.Perm l')
    (hn : (l.map Prod.fst).Nodup) (k : String) : lookupA k l = lookupA k l' := by
  have hn' : (l'.map Prod.fst).Nodup := ((h.map Prod.fst).nodup_iff).mp hn
  cases hl : lookupA k l with
  | none =>
    have hk := (lookupA_eq_none_iff k l).mp hl
    have : k ∉ l'.map Prod.fst := fun hc => hk ((h.map Prod.fst).mem_iff.mpr hc)
    exact ((lookupA_eq_none_iff k l').mpr this).symm
  | some v =>
    have := lookupA_mem_of_eq_some hl
    exact (lookupA_eq_some_of_mem_nodup hn' (h.mem_iff.mp this)).symm

theorem lookupA_append_right {β : Type} {k : String} {l1 l2 : List (String × β)}
    (h : k ∉ l1.map Prod.fst) : lookupA k (l1 ++ l2) = lookupA k l2 := by
  induction l1 with
  | nil => rfl
  | cons p rest ih =>
    simp only [List.map_cons, List.mem_cons] at h
    push_neg at h
    simp only [List.cons_append, lookupA, Ne.symm h.1, if_false]
    exact ih h.2

/-! ### Strictly increasing positions along a duplicate-free name list -/

theorem idxOfStr_cons_of_ne {n a : String} (ns : List String) (h : n ≠ a) :
    idxOfStr (n :: ns) a = idxOfStr ns a + 1 := by
  simp [idxOfStr, h]

theorem sublist_pairwise_idx {l names : List String} (hl : l.Sublist names) :
    names.Nodup → l.Pairwise (fun a b => idxOfStr names a < idxOfStr names b) := by
  induction hl with
  | slnil => intro _; exact List.Pairwise.nil
  | @cons l1 l2 n h' ih =>
    intro hn
    have hnn : n ∉ l2 := (List.nodup_cons.mp hn).1
    have hp := ih (List.nodup_cons.mp hn).2
    refine hp.imp_of_mem ?_
    intro a b ha hb hab
    have han : n ≠ a := fun hc => hnn (hc ▸ h'.subset ha)
    have hbn : n ≠ b := fun hc => hnn (hc ▸ h'.subset hb)
    rw [idxOfStr_cons_of_ne l2 han, idxOfStr_cons_of_ne l2 hbn]
    exact Nat.succ_lt_succ hab
  | @cons₂ l1 l2 n h' ih =>
    intro hn
    have hnn : n ∉ l2 := (List.nodup_cons.mp hn).1
    refine List.Pairwise.cons ?_ ?_
    · intro b hb
      have hbn : n ≠ b := fun hc => hnn (hc ▸ h'.subset hb)
      rw [idxOfStr_cons_of_ne l2 hbn]
      simp [idxOfStr]
    · have hp := ih (List.nodup_cons.mp hn).2
      refine hp.imp_of_mem ?_
      intro a b ha hb hab
      have han : n ≠ a := fun hc => hnn (hc ▸ h'.subset ha)
      have hbn : n ≠ b := fun hc => hnn (hc ▸ h'.subset hb)
      rw [idxOfStr_cons_of_ne l2 han, idxOfStr_cons_of_ne l2 hbn]
      exact Nat.succ_lt_succ hab

/-! ### Lemmas about the field loop of Node.validate -/

theorem process_field_key {n : String} {f : FieldSpec} {entries : List (String × JValue)}
    {so : StackObjects} {kw : Kwargs} {o : Option (String × JValue)} {so' : StackObjects}
    (h : process_field n f entries so kw = .ok (o, so')) :
    ∀ p, o = some p → p.1 = n := by
  intro p hp
  subst hp
  unfold process_field at h
  split at h
  · simp at h
  · split at h
    · split at h
      · cases h
      · split at h
        · cases h
        · simp only [Except.ok.injEq, Prod.mk.injEq, Option.some.injEq] at h
          rw [← h.1]
    · split at h
      · cases h
      · split at h
        · split at h
          · cases h
          · simp only [Except.ok.injEq, Prod.mk.injEq, Option.some.injEq] at h
            rw [← h.1]
        · simp at h

theorem validate_fields_keys {fields : List (String × FieldSpec)} :
    ∀ {entries : List (String × JValue)} {so : StackObjects} {kw : Kwargs}
      {res : List (String × JValue)} {so' : StackObjects},
    validate_fields fields entries so kw = .ok (res, so') →
    (res.map Prod.fst).Sublist (fields.map Prod.fst) := by
  induction fields with
  | nil =>
    intro entries so kw res so' h
    simp only [validate_fields, Except.ok.injEq, Prod.mk.injEq] at h
    rw [← h.1]
    simp
  | cons nf rest ih =>
    intro entries so kw res so' h
    obtain ⟨n, f⟩ := nf
    cases hp : process_field n f entries so kw with
    | error e => simp [validate_fields, hp] at h
    | ok p1 =>
      obtain ⟨o, so1⟩ := p1
      cases hr : validate_fields rest entries so1 kw with
      | error e => simp [validate_fields, hp, hr] at h
      | ok p2 =>
        obtain ⟨res2, so2⟩ := p2
        simp only [validate_fields, hp, hr, Except.ok.injEq, Prod.mk.injEq] at h
        obtain ⟨h1, _⟩ := h
        subst h1
        have hsub := ih hr
        cases o with
        | none => exact List.Sublist.cons n (by simpa using hsub)
        | some p =>
          have hpk := process_field_key hp p rfl
          simp only [Option.toList, List.cons_append, List.nil_append, List.map_cons]
          rw [hpk]
          exact List.Sublist.cons₂ n hsub

theorem check_keys_ok_of_subset {names quiet : List String} {hasC : Bool} :
    ∀ keys : List String, (∀ k ∈ keys, names.contains k = true) →
    check_keys names quiet hasC keys = .ok () := by
  intro keys
  induction keys with
  | nil => intro _; rfl
  | cons k rest ih =>
    intro h
    have hmem : names.contains k = true := h k (List.mem_cons_self k rest)
    have hrec := ih (fun a ha => h a (List.mem_cons_of_mem k ha))
    unfold check_keys
    by_cases h1 : quiet.contains k = true
    · rw [if_pos h1]
      exact hrec
    · rw [if_neg h1]
      by_cases h2 : (decide (k = "type") && hasC) = true
      · rw [if_pos h2]
        exact hrec
      · rw [if_neg h2, if_pos hmem]
        exact hrec

/-! ### Lemmas about the type stamping -/

theorem move_to_front_append {d : List (String × JValue)} {k : String} {v : JValue}
    (h : k ∉ d.map Prod.fst) :
    move_to_front (d ++ [(k, v)]) k = (k, v) :: d := by
  have hf : d.filter (fun p => p.1 != k) = d := by
    apply List.filter_eq_self.mpr
    intro p hp
    have hne : p.1 ≠ k := fun hc => h (hc ▸ List.mem_map_of_mem Prod.fst hp)
    simpa [bne_iff_ne] using hne
  simp [move_to_front, lookupA_append_right h, lookupA, List.filter_append, hf]

theorem lookupA_setKeyA_self {β : Type} (d : List (String × β)) (k : String) (v : β) :
    lookupA k (setKeyA d k v) = some v := by
  unfold setKeyA
  by_cases h : (lookupA k d).isSome
  · rw [if_pos h]
    induction d with
    | nil => simp [lookupA] at h
    | cons p rest ih =>
      by_cases hp : p.1 = k
      · simp [lookupA, hp]
      · simp only [lookupA, hp, if_false] at h
        simpa [lookupA, hp] using ih h
  · rw [if_neg h]
    have : k ∉ d.map Prod.fst := by
      rw [← lookupA_eq_none_iff]
      exact Option.not_isSome_iff_eq_none.mp h
    rw [lookupA_append_right this]
    simp [lookupA]

theorem set_key_move_head (rs : List (String × JValue)) (tag : String) :
    ∃ rest, set_key_and_move_type_to_front rs tag = ("type", .str tag) :: rest := by
  unfold set_key_and_move_type_to_front move_to_front
  rw [lookupA_setKeyA_self]
  exact ⟨_, rfl⟩

theorem set_key_and_move_type_to_front_fresh {rs : List (String × JValue)} {tag : String}
    (h : "type" ∉ rs.map Prod.fst) :
    set_key_and_move_type_to_front rs tag = ("type", .str tag) :: rs := by
  unfold set_key_and_move_type_to_front setKeyA
  have hn : lookupA "type" rs = none := (lookupA_eq_none_iff _ _).mpr h
  rw [hn]
  simp only [Option.isSome_none, Bool.false_eq_true, if_false]
  exact move_to_front_append h

/-! ### The no-op re-sort of an already canonically ordered field list -/

theorem sort_fields_eq {names : List String} {res : List (String × JValue)}
    (hnd : names.Nodup) (hsub : (res.map Prod.fst).Sublist names) :
    sortBy (fun a b => decide (idxOfStr names a.1 < idxOfStr names b.1)) res = res := by
  apply sortBy_eq_self
  · intro a b hab
    simp only [decide_eq_true_eq] at hab
    simpa using Nat.lt_asymm hab
  · have hp := sublist_pairwise_idx hsub hnd
    rw [List.pairwise_map] at hp
    exact hp.imp (fun h => by simpa using h)

/-! ### Shape of a successful Node.validate result -/

theorem node_validate_dict_shape {spec : NodeSpec} {entries : List (String × JValue)}
    {so : StackObjects} {kw : Kwargs} {r : JValue} {so' : StackObjects}
    (hnd : (spec.fields.map Prod.fst).Nodup)
    (h : node_validate_dict spec entries so kw = .ok (r, so')) :
    ∃ res, r = .dict res ∧ (res.map Prod.fst).Sublist (spec.fields.map Prod.fst) ∧
      validate_fields spec.fields entries so kw = .ok (res, so') := by
  cases hk : check_keys (spec.fields.map Prod.fst) spec.quietly_drop_superfluous_fields
      spec.has_choice_type (entries.map Prod.fst) with
  | error e => simp [node_validate_dict, hk] at h
  | ok u =>
    cases hv : validate_fields spec.fields entries so kw with
    | error e => simp [node_validate_dict, hk, hv] at h
    | ok p =>
      obtain ⟨res, so2⟩ := p
      have hsub := validate_fields_keys hv
      have hsort := sort_fields_eq hnd hsub
      simp only [node_validate_dict, hk, hv, hsort, Except.ok.injEq, Prod.mk.injEq] at h
      refine ⟨res, h.1.symm, hsub, ?_⟩
      rw [← h.2]

theorem node_validate_shortform_shape {spec : NodeSpec} {v : JValue}
    {so : StackObjects} {kw : Kwargs} {r : JValue} {so' : StackObjects}
    (hnd : (spec.fields.map Prod.fst).Nodup)
    (h : node_validate_shortform spec v so kw = .ok (r, so')) :
    ∃ res, r = .dict res ∧ (res.map Prod.fst).Sublist (spec.fields.map Prod.fst) := by
  cases hsf : spec.shortform with
  | none => simp [node_validate_shortform, hsf] at h
  | some sf =>
    cases hfv : sf.field_validate_fn v with
    | error e => simp [node_validate_shortform, hsf, hfv] at h
    | ok u =>
      cases hconv : sf.conversion v
      case dict es =>
        simp only [node_validate_shortform, hsf, hfv, hconv] at h
        exact (node_validate_dict_shape hnd h).imp (fun res hr => ⟨hr.1, hr.2.1⟩)
      all_goals simp [node_validate_shortform, hsf, hfv, hconv] at h

theorem node_validate_shape {spec : NodeSpec} {obj : JValue}
    {so : StackObjects} {kw : Kwargs} {r : JValue} {so' : StackObjects}
    (hnd : (spec.fields.map Prod.fst).Nodup)
    (h : node_validate spec obj so kw = .ok (r, so')) :
    ∃ res, r = .dict res ∧ (res.map Prod.fst).Sublist (spec.fields.map Prod.fst) := by
  cases obj
  case dict entries =>
    simp only [node_validate] at h
    exact (node_validate_dict_shape hnd h).imp (fun res hr => ⟨hr.1, hr.2.1⟩)
  all_goals
    simp only [node_validate] at h
    exact node_validate_shortform_shape hnd h

/-- C9: A Float field rejects NaN and both infinities with InvalidInput
regardless of any configured min/max bounds: in
Float.helper_for_validation the NaN/Infinity checks run before any bound
is consulted, so no choice of bounds can let such a value through. -/
theorem claim9_float_rejects_nan_and_inf (mn mx : Option ℚ) :
    float_helper mn mx (.float .nan) = .error (.invalidInput "the value must not be NaN.") ∧
    float_helper mn mx (.float .inf) = .error (.invalidInput "the value must not be infinite.") ∧
    float_helper mn mx (.float .negInf) = .error (.invalidInput "the value must not be infinite.") :=
  ⟨rfl, rfl, rfl⟩

/-- C10: Integer and Float field validation accept Python booleans, since
bool is a subclass of int: an unbounded Integer field validates True to
True, an unbounded Float field likewise, and only the dedicated Boolean
field rejects every non-boolean value strictly. -/
theorem claim10_bool_passes_numeric_fields :
    integer_helper none none (.bool true) = .ok (.bool true) ∧
    float_helper none none (.bool true) = .ok (.bool true) ∧
    ∀ v : JValue, isinstance_bool v = false →
      boolean_helper v = .error (.invalidInput "the field must be a boolean value") := by
  refine ⟨rfl, rfl, ?_⟩
  intro v hv
  simp [boolean_helper, hv]

theorem claim10_witness :
    integer_helper none none (.bool true) = .ok (.bool true) ∧
    boolean_helper (.int 3) = .error (.invalidInput "the field must be a boolean value") :=
  ⟨claim10_bool_passes_numeric_fields.1,
   claim10_bool_passes_numeric_fields.2.2 (.int 3) rfl⟩

/-- C7 (code bug): MultipleChoiceSelection silently accepts a falsy
invalid element instead of failing with InvalidInput.  With
choices=['a'], the empty string is not in the allowed set, yet
validating [''] succeeds and returns []: the code applies any() to the
list of offending elements, and any() tests the truthiness of the
elements, so falsy offenders never trigger the error.  The other parts
of the claim do hold: null normalizes to [], a single string becomes a
one-element list, a truthy invalid element fails with InvalidInput, and
a successful list is de-duplicated and reordered to the declared order. -/
theorem claim7_mcs_falsy_element_slips_through :
    mcs_validate ["a"] (.list [.str ""]) = .ok (.list []) ∧
    jval_eq_str (.str "") "a" = false ∧
    mcs_validate ["a"] .null = .ok (.list []) ∧
    mcs_validate ["a"] (.str "a") = .ok (.list [.str "a"]) ∧
    mcs_validate ["a"] (.str "b") = .error (.invalidInput (mcs_msg ["a"])) ∧
    mcs_validate ["a", "b"] (.list [.str "b", .str "a", .str "b"]) =
      .ok (.list [.str "a", .str "b"]) :=
  ⟨rfl, rfl, rfl, rfl, rfl, rfl⟩

/-- With a single candidate (a 'value' reference, or a one-member group)
whose kwargs check passes, the resolver goes straight to direct dispatch. -/
theorem execute_single (c : Candidate) (obj : JValue) (so : StackObjects) (kw : Kwargs)
    (hkw : kwargs_ok c kw = true) :
    execute_function_on_node_validate [c] obj so kw = dispatch_selected [c] c obj so kw := by
  unfold execute_function_on_node_validate
  have h1 : (decide (1 < ([c]).length) && is_empty_dict obj) = false := by simp
  rw [h1]
  have hck : check_kwargs [c] kw = .ok () := by simp [check_kwargs, hkw]
  simp only [Bool.false_eq_true, if_false, hck]
  simp [select_candidate]

/-- C3: For every node type whose merged field names are duplicate-free
and do not include 'type', and every raw input that the base
Node.validate accepts, the validated result is an ordered map whose key
sequence is a subsequence of the merged declaration order (so the output
order is the canonical field order no matter in which order keys appeared
in the raw input); and when such a node is dispatched as a polymorphic
group member, the discriminator 'type' tag is placed first, followed by
the fields in merged order. -/
theorem claim3_field_order (spec : NodeSpec) (tag : String) (reqArgs : List String)
    (hnd : (spec.fields.map Prod.fst).Nodup)
    (htype : "type" ∉ spec.fields.map Prod.fst) :
    (∀ obj so kw r so', node_validate spec obj so kw = .ok (r, so') →
      ∃ res, r = .dict res ∧ (res.map Prod.fst).Sublist (spec.fields.map Prod.fst)) ∧
    (∀ entries so kw v so',
      lookupA "type" entries = none →
      kwargs_ok (mk_node_candidate spec tag reqArgs) kw = true →
      execute_function_on_node_validate [mk_node_candidate spec tag reqArgs]
        (.dict entries) so kw = .ok (v, so') →
      ∃ res, v = .dict (("type", .str tag) :: res) ∧
        (res.map Prod.fst).Sublist (spec.fields.map Prod.fst)) := by
  constructor
  · intro obj so kw r so' h
    exact node_validate_shape hnd h
  · intro entries so kw v so' hno hkw h
    rw [execute_single _ _ _ _ hkw] at h
    cases hv : node_validate spec (.dict entries) so kw with
    | error e =>
      exfalso
      simp [dispatch_selected, mk_node_candidate, hv] at h
    | ok p =>
      obtain ⟨r0, so2⟩ := p
      obtain ⟨res, hres, hsub⟩ := node_validate_shape hnd hv
      subst hres
      have htr : "type" ∉ res.map Prod.fst := fun hm => htype (hsub.subset hm)
      have hlt : lookupA "type" res = none := (lookupA_eq_none_iff _ _).mpr htr
      simp only [dispatch_selected, mk_node_candidate, hv, hno, hlt,
                 Bool.not_eq_true, if_false] at h
      rw [move_to_front_append htr] at h
      obtain ⟨h1, h2⟩ := h
      exact ⟨res, rfl, hsub⟩

theorem claim3_witness :
    ∃ res, (JValue.dict [("type", .str "t_ab"), ("a", .int 1), ("b", .int 2)]) =
        .dict (("type", .str "t_ab") :: res) ∧
      (res.map Prod.fst).Sublist (spec_ab.fields.map Prod.fst) :=
  (claim3_field_order spec_ab "t_ab" [] (by decide) (by decide)).2
    [("b", .int 2), ("a", .int 1)] so0 [] _ so0 rfl rfl rfl

/-- C5 (counterexample): a superclass declares x (creation order 0) and
y (creation order 1); a subclass whitelisting the override re-declares x
(creation order 2).  The merge sorts by the surviving field objects'
order_of_creation, so x ends up after y — the position of the later
override, not where the name x was first introduced. -/
theorem claim5_counterexample :
    node_subclass_field_merge [[("x", 0), ("y", 1)], [("x", 2)]] ["x"] =
      .ok [("y", 1), ("x", 2)] ∧
    ([("y", 1), ("x", 2)] : List (String × Nat)).map Prod.fst ≠ ["x", "y"] := by
  refine ⟨rfl, ?_⟩
  decide

/-- C5 (amended): the merged field list is sorted by the creation order
of the surviving field objects.  An override replaces the entry by the
subclass's field object, whose creation order is later, so an overridden
field's position reflects the position of the overriding declaration,
not where its name was first introduced in the hierarchy. -/
theorem claim5_amended (ancestors : List (List (String × Nat))) (ov : List String)
    (l : List (String × Nat))
    (h : node_subclass_field_merge ancestors ov = .ok l) :
    l.Pairwise (fun a b => a.2 ≤ b.2) := by
  unfold node_subclass_field_merge at h
  cases hf : ancestors.foldlM (fun acc cls => add_class_fields ov acc cls) [] with
  | error e => rw [hf] at h; cases h
  | ok acc =>
    rw [hf] at h
    simp only [Except.ok.injEq] at h
    subst h
    exact sortBy_pairwise_le (fun p => p.2) acc

theorem claim5_witness :
    ([("y", 1), ("x", 2)] : List (String × Nat)).Pairwise (fun a b => a.2 ≤ b.2) :=
  claim5_amended [[("x", 0), ("y", 1)], [("x", 2)]] ["x"] _ rfl

/-! ### C6: shortform conversion errors -/

theorem node_validate_non_dict {spec : NodeSpec} {v : JValue} {so : StackObjects}
    {kw : Kwargs} (hv : v.isDict = false) :
    node_validate spec v so kw = node_validate_shortform spec v so kw := by
  cases v <;> first | rfl | simp [JValue.isDict] at hv

theorem node_validate_shortform_field_err {spec : NodeSpec} {sf : ShortformSpec}
    {v : JValue} {so : StackObjects} {kw : Kwargs} {e : VErr}
    (hsf : spec.shortform = some sf) (hfe : sf.field_validate_fn v = .error e) :
    node_validate_shortform spec v so kw = .error e := by
  simp [node_validate_shortform, hsf, hfe]

theorem node_validate_shortform_conv_err {spec : NodeSpec} {sf : ShortformSpec}
    {v : JValue} {so : StackObjects} {kw : Kwargs} {u : JValue}
    (hsf : spec.shortform = some sf) (hfo : sf.field_validate_fn v = .ok u)
    (hc : (sf.conversion v).isDict = false) :
    node_validate_shortform spec v so kw =
      .error (.programmingError "the shortform conversion did not return a dict") := by
  simp only [node_validate_shortform, hsf, hfo]
  cases hcv : sf.conversion v
  case dict es =>
    rw [hcv] at hc
    simp [JValue.isDict] at hc
  all_goals rfl

/-- C6 (counterexample): a concrete node whose shortform conversion
returns a non-map.  Validating the non-map raw value 5 fails with a
ProgrammingError — the internal-consistency error kind — and not with
InvalidInput as the claim states. -/
theorem claim6_counterexample :
    node_validate spec_bad_shortform (.int 5) so0 [] =
      .error (.programmingError "the shortform conversion did not return a dict") ∧
    VErr.isInvalidInput (.programmingError "the shortform conversion did not return a dict")
      = false :=
  ⟨rfl, rfl⟩

/-- C6 (amended): when a node declares a shortform and the raw value is
not a map, the raw value is first validated against the shortform
field's type (an error there propagates unchanged), and only then
converted by the shortform conversion function; if the conversion does
not yield a map, validation fails with ProgrammingError — the
internal-consistency kind, not the recoverable InvalidInput the spec
names, because a conversion that returns a non-map is the node
definition's fault rather than the caller's. -/
theorem claim6_amended (spec : NodeSpec) (sf : ShortformSpec) (v : JValue)
    (so : StackObjects) (kw : Kwargs)
    (hsf : spec.shortform = some sf) (hv : v.isDict = false) :
    (∀ e, sf.field_validate_fn v = .error e → node_validate spec v so kw = .error e) ∧
    (∀ u, sf.field_validate_fn v = .ok u → (sf.conversion v).isDict = false →
      node_validate spec v so kw =
        .error (.programmingError "the shortform conversion did not return a dict")) := by
  constructor
  · intro e hfe
    rw [node_validate_non_dict hv]
    exact node_validate_shortform_field_err hsf hfe
  · intro u hfo hc
    rw [node_validate_non_dict hv]
    exact node_validate_shortform_conv_err hsf hfo hc

theorem claim6_witness :
    node_validate spec_bad_shortform (.int 5) so0 [] =
      .error (.programmingError "the shortform conversion did not return a dict") :=
  (claim6_amended spec_bad_shortform
      { field_validate_fn := fun v => .ok v, conversion := fun _ => .int 7 }
      (.int 5) so0 [] rfl rfl).2 (.int 5) rfl rfl

/-- C2: A failed backtracking candidate leaves zero observable effect on
the context seen by subsequent candidates or by the caller.  Each trial
runs the candidate's validate against an independent copy of the caller's
stack_objects (all slots except those named in immutable_fields are deep
copies; in this pure embedding the copy agrees with the caller's context
on every slot, see copy_of_stack_objects_eq); the loop never threads a
trial's context back, so a candidate whose trial raises
InvalidParamsException can be deleted from the candidate list without
changing the outcome of the remaining trials at all. -/
theorem claim2_failed_candidate_no_effect (c : Candidate) (obj : JValue)
    (so : StackObjects) (kw : Kwargs) (m : String)
    (hfail : try_candidate c obj so kw = .error (.invalidInput m)) :
    ∀ pre post : List Candidate,
      run_candidates (pre ++ c :: post) obj so kw = run_candidates (pre ++ post) obj so kw := by
  intro pre post
  induction pre with
  | nil =>
    simp only [List.nil_append, run_candidates, hfail]
  | cons p ps ih =>
    simp only [List.cons_append, run_candidates]
    cases hp : try_candidate p obj so kw with
    | ok r =>
      obtain ⟨r1, cso⟩ := r
      have ih2 : run_candidates (ps.append (c :: post)) obj so kw =
          run_candidates (ps.append post) obj so kw := ih
      rw [ih2]
    | error e =>
      cases e with
      | invalidInput m2 => exact ih
      | programmingError m2 => rfl

theorem claim2_witness :
    run_candidates [cand_no_fields, cand_always_fails, cand_needs_val]
      (.dict [("val", .int 3)]) so0 [] =
    run_candidates [cand_no_fields, cand_needs_val] (.dict [("val", .int 3)]) so0 [] :=
  claim2_failed_candidate_no_effect cand_always_fails (.dict [("val", .int 3)]) so0 []
    "does not fit" rfl [cand_no_fields] [cand_needs_val]

/-! ### Helper lemmas for the resolver -/

theorem check_kwargs_all :
    ∀ (cands : List Candidate) (kw : Kwargs),
    (∀ c ∈ cands, kwargs_ok c kw = true) → check_kwargs cands kw = .ok () := by
  intro cands kw
  induction cands with
  | nil => intro _; rfl
  | cons c cs ih =>
    intro h
    unfold check_kwargs
    rw [if_pos (h c (List.mem_cons_self c cs))]
    exact ih (fun a ha => h a (List.mem_cons_of_mem c ha))

theorem run_candidates_mem {cands : List Candidate} {obj : JValue} {so : StackObjects}
    {kw : Kwargs} {l : List (Candidate × JValue × StackObjects)}
    (h : run_candidates cands obj so kw = .ok l) :
    ∀ s ∈ l, s.1 ∈ cands := by
  induction cands generalizing l with
  | nil =>
    simp only [run_candidates, Except.ok.injEq] at h
    subst h
    simp
  | cons c cs ih =>
    cases hp : try_candidate c obj so kw with
    | ok r =>
      obtain ⟨r1, cso⟩ := r
      cases hr : run_candidates cs obj so kw with
      | error e => simp [run_candidates, hp, hr] at h
      | ok l2 =>
        simp only [run_candidates, hp, hr, Except.ok.injEq] at h
        subst h
        intro s hs
        rcases List.mem_cons.mp hs with rfl | hs
        · exact List.mem_cons_self _ _
        · exact List.mem_cons_of_mem _ (ih hr s hs)
    | error e =>
      cases e with
      | invalidInput m =>
        have h2 : run_candidates cs obj so kw = .ok l := by
          rw [← h]
          simp [run_candidates, hp]
        intro s hs
        exact List.mem_cons_of_mem _ (ih h2 s hs)
      | programmingError m => simp [run_candidates, hp] at h

theorem mapOptM_isSome {α β : Type} (f : α → Option β) :
    ∀ l : List α, (∀ x ∈ l, (f x).isSome = true) → ∃ ys, mapOptM f l = some ys := by
  intro l
  induction l with
  | nil => intro _; exact ⟨[], rfl⟩
  | cons x xs ih =>
    intro h
    obtain ⟨y, hy⟩ := Option.isSome_iff_exists.mp (h x (List.mem_cons_self x xs))
    obtain ⟨ys, hys⟩ := ih (fun a ha => h a (List.mem_cons_of_mem x ha))
    exact ⟨y :: ys, by simp [mapOptM, hy, hys]⟩

/-- With more than one candidate, a NON-empty input map without a 'type'
key and matching kwargs, the resolver reaches backtracking
disambiguation. -/
theorem execute_multi_backtrack (c1 c2 : Candidate) (cs : List Candidate)
    (e : String × JValue) (es : List (String × JValue)) (so : StackObjects) (kw : Kwargs)
    (hkw : ∀ c ∈ c1 :: c2 :: cs, kwargs_ok c kw = true)
    (hno : lookupA "type" (e :: es) = none) :
    execute_function_on_node_validate (c1 :: c2 :: cs) (.dict (e :: es)) so kw =
      backtrack_validate (c1 :: c2 :: cs) (.dict (e :: es)) so kw := by
  unfold execute_function_on_node_validate
  have hg : (decide (1 < (c1 :: c2 :: cs).length) && is_empty_dict (.dict (e :: es))) = false := by
    simp [is_empty_dict]
  rw [hg]
  have hck : check_kwargs (c1 :: c2 :: cs) kw = .ok () := check_kwargs_all _ _ hkw
  simp only [Bool.false_eq_true, if_false, hck]
  have hsel : select_candidate (c1 :: c2 :: cs) (.dict (e :: es)) = .ok none := by
    simp [select_candidate, hno]
  rw [hsel]

/-- C1 (counterexample): the claim omits the empty-map special case.  For
the EMPTY input map (which carries no 'type' key) and a two-member group
in which exactly one member validates the empty map successfully, the
resolver does not attempt the candidates at all: basics.py line 388 fails
immediately with InvalidInput naming the member node names, although the
claim's "exactly one success" rule would demand adoption of that
candidate's result. -/
theorem claim1_counterexample :
    execute_function_on_node_validate [cand_no_fields, cand_needs_val] (.dict []) so0 [] =
      .error (.invalidInput (empty_dict_msg ["empty_ok", "needs_val"])) ∧
    run_candidates [cand_no_fields, cand_needs_val] (.dict []) so0 [] =
      .ok [(cand_no_fields, .dict [], so0)] ∧
    lookupA "type" ([] : List (String × JValue)) = none ∧
    execute_function_on_node_validate [cand_no_fields, cand_needs_val] (.dict []) so0 [] ≠
      .ok (.dict (set_key_and_move_type_to_front [] "empty_ok"), so0) := by
  refine ⟨rfl, rfl, rfl, ?_⟩
  intro h
  injection h

/-- C1 (amended): for a group reference with more than one candidate, a
NON-empty input map carrying no 'type' key, kwargs matching every
candidate's required arguments, and every candidate carrying a
discriminator tag, the resolver tries every candidate and the outcome is
decided by the number of candidates that validate without InvalidInput:
exactly one success adopts that candidate's result with the tag stamped
as the first key and replaces the live context with that candidate's
isolated copy; zero successes fail with InvalidInput naming all candidate
tags; several successes fail with InvalidInput naming the matching tags.
(The EMPTY map is the documented exception: it fails immediately with
InvalidInput listing the candidate type names, without any trial.) -/
theorem claim1_amended (cands : List Candidate) (entries : List (String × JValue))
    (so : StackObjects) (kw : Kwargs) (successes : List (Candidate × JValue × StackObjects))
    (hlen : 1 < cands.length)
    (hne : entries ≠ [])
    (hno : lookupA "type" entries = none)
    (hkw : ∀ c ∈ cands, kwargs_ok c kw = true)
    (htags : ∀ c ∈ cands, (c.choiceType).isSome = true)
    (hrun : run_candidates cands (.dict entries) so kw = .ok successes) :
    (∀ c rs cso, successes = [(c, .dict rs, cso)] →
      ∃ tag, c.choiceType = some tag ∧
        execute_function_on_node_validate cands (.dict entries) so kw =
          .ok (.dict (set_key_and_move_type_to_front rs tag), cso) ∧
        ∃ rest, set_key_and_move_type_to_front rs tag = ("type", .str tag) :: rest) ∧
    (successes = [] →
      ∃ tags, mapOptM Candidate.choiceType cands = some tags ∧
        execute_function_on_node_validate cands (.dict entries) so kw =
          .error (.invalidInput (no_valid_parse_msg tags))) ∧
    (1 < successes.length →
      ∃ tags, mapOptM (fun s => s.1.choiceType) successes = some tags ∧
        execute_function_on_node_validate cands (.dict entries) so kw =
          .error (.invalidInput (ambiguous_msg tags))) := by
  obtain ⟨e1, es, rfl⟩ : ∃ e1 es, entries = e1 :: es := by
    cases entries with
    | nil => exact absurd rfl hne
    | cons a as => exact ⟨a, as, rfl⟩
  obtain ⟨c1, cs1, rfl⟩ : ∃ c1 cs1, cands = c1 :: cs1 := by
    cases cands with
    | nil => simp at hlen
    | cons a as => exact ⟨a, as, rfl⟩
  obtain ⟨c2, cs2, rfl⟩ : ∃ c2 cs2, cs1 = c2 :: cs2 := by
    cases cs1 with
    | nil => simp at hlen
    | cons a as => exact ⟨a, as, rfl⟩
  have hexec := execute_multi_backtrack c1 c2 cs2 e1 es so kw hkw hno
  refine ⟨?_, ?_, ?_⟩
  · intro c rs cso hs
    subst hs
    have hmem : c ∈ c1 :: c2 :: cs2 :=
      run_candidates_mem hrun (c, .dict rs, cso) (List.mem_cons_self _ _)
    obtain ⟨tag, htag⟩ := Option.isSome_iff_exists.mp (htags c hmem)
    refine ⟨tag, htag, ?_, set_key_move_head rs tag⟩
    rw [hexec]
    simp [backtrack_validate, hrun, htag]
  · intro hs
    subst hs
    obtain ⟨tags, htags2⟩ := mapOptM_isSome Candidate.choiceType (c1 :: c2 :: cs2) htags
    refine ⟨tags, htags2, ?_⟩
    rw [hexec]
    simp [backtrack_validate, hrun, htags2]
  · intro hmany
    obtain ⟨s1, s2, ss, rfl⟩ : ∃ s1 s2 ss, successes = s1 :: s2 :: ss := by
      cases successes with
      | nil => simp at hmany
      | cons a as =>
        cases as with
        | nil => simp at hmany
        | cons b bs => exact ⟨a, b, bs, rfl⟩
    have hmemall : ∀ s ∈ s1 :: s2 :: ss, (Prod.fst s).choiceType.isSome = true := by
      intro s hs
      exact htags s.1 (run_candidates_mem hrun s hs)
    obtain ⟨tags, htags2⟩ := mapOptM_isSome (fun s => s.1.choiceType) (s1 :: s2 :: ss) hmemall
    refine ⟨tags, htags2, ?_⟩
    rw [hexec]
    simp [backtrack_validate, hrun, htags2]

theorem claim1_witness :
    ∃ tag, cand_needs_val.choiceType = some tag ∧
      execute_function_on_node_validate [cand_no_fields, cand_needs_val]
        (.dict [("val", .int 3)]) so0 [] =
        .ok (.dict (set_key_and_move_type_to_front [("val", .int 3)] tag), so0) ∧
      ∃ rest, set_key_and_move_type_to_front [("val", .int 3)] tag =
        ("type", .str tag) :: rest :=
  (claim1_amended [cand_no_fields, cand_needs_val] [("val", .int 3)] so0 []
      [(cand_needs_val, .dict [("val", .int 3)], so0)]
      (by decide) (by exact List.cons_ne_nil _ _) rfl (by decide) (by decide) rfl).1
    cand_needs_val [("val", .int 3)] so0 rfl

/-! ### C8: canonical-key collisions in Mapping -/

theorem mapping_loop_collision (keyV : String → Except VErr String)
    (contentV : JValue → StackObjects → Kwargs → Except VErr (JValue × StackObjects))
    (canon : String → String) (kw : Kwargs) :
    ∀ (entries res : List (String × JValue)) (so : StackObjects),
    (∀ k ∈ entries.map Prod.fst, keyV k = .ok (canon k)) →
    (∀ v so2 m, contentV v so2 kw ≠ .error (.programmingError m)) →
    ¬ (entries.map (fun p => canon p.1) ++ res.map Prod.fst).Nodup →
    (res.map Prod.fst).Nodup →
    ∃ m, mapping_loop keyV contentV entries res so kw = .error (.invalidInput m) := by
  intro entries
  induction entries with
  | nil =>
    intro res so _ _ hcol hnd
    simp only [List.map_nil, List.nil_append] at hcol
    exact absurd hnd hcol
  | cons e rest ih =>
    obtain ⟨k, v⟩ := e
    intro res so hkeys hcontent hcol hnd
    have hk : keyV k = .ok (canon k) := hkeys k (by simp)
    cases hcv : contentV v (trace_push so ("value for key " ++ k) v) kw with
    | error e2 =>
      cases e2 with
      | invalidInput m => exact ⟨m, by simp [mapping_loop, hk, hcv]⟩
      | programmingError m => exact absurd hcv (hcontent _ _ m)
    | ok p =>
      obtain ⟨w, so2⟩ := p
      by_cases hdup : (lookupA (canon k) res).isSome
      · exact ⟨duplicate_key_msg (canon k), by simp [mapping_loop, hk, hcv, hdup]⟩
      · have hnotin : canon k ∉ res.map Prod.fst := by
          rw [← lookupA_eq_none_iff]
          exact Option.not_isSome_iff_eq_none.mp hdup
        have hnd2 : ((res ++ [(canon k, w)]).map Prod.fst).Nodup := by
          rw [List.map_append]
          refine List.Nodup.append hnd (List.nodup_singleton _) ?_
          simp only [List.map_cons, List.map_nil, List.disjoint_singleton]
          simpa using hnotin
        have hcol2 :
            ¬ (rest.map (fun p => canon p.1) ++ (res ++ [(canon k, w)]).map Prod.fst).Nodup := by
          intro hcon
          apply hcol
          rw [List.map_append] at hcon
          simp only [List.map_cons, List.map_nil] at hcon
          have h1 : rest.map (fun p => canon p.1) ++ (res.map Prod.fst ++ [canon k]) =
              (rest.map (fun p => canon p.1) ++ res.map Prod.fst) ++ [canon k] := by
            rw [List.append_assoc]
          rw [h1] at hcon
          have hperm := List.perm_append_singleton (canon k)
            (rest.map (fun p => canon p.1) ++ res.map Prod.fst)
          have := hperm.nodup hcon
          simpa using this
        obtain ⟨m, hm⟩ := ih (res ++ [(canon k, w)]) (trace_pop so2 so.current_object)
          (fun a ha => hkeys a (List.mem_cons_of_mem _ ha)) hcontent hcol2 hnd2
        exact ⟨m, by simp [mapping_loop, hk, hcv, hdup, hm]⟩

/-- C8: for every Mapping field, two distinct raw keys that the key field
normalizes to the same canonical key (for example "1" and "01" through
IntegerAsString, which both canonicalize to "1") cause validation to fail
with InvalidInput rather than silently overwriting one entry.  canon is
the key field's normalization; the content field may fail with
InvalidInput of its own but never raises internal errors. -/
theorem claim8_mapping_duplicate_keys (intKey : Bool)
    (keyV : String → Except VErr String)
    (contentV : JValue → StackObjects → Kwargs → Except VErr (JValue × StackObjects))
    (canon : String → String) (entries : List (String × JValue))
    (so : StackObjects) (kw : Kwargs)
    (hkeys : ∀ k ∈ entries.map Prod.fst, keyV k = .ok (canon k))
    (hcontent : ∀ v so2 m, contentV v so2 kw ≠ .error (.programmingError m))
    (hcol : ¬ (entries.map (fun p => canon p.1)).Nodup) :
    ∃ m, mapping_helper intKey keyV contentV (.dict entries) so kw =
      .error (.invalidInput m) := by
  obtain ⟨m, hm⟩ := mapping_loop_collision keyV contentV canon kw entries [] so hkeys hcontent
    (by simpa using hcol) (by simp)
  exact ⟨m, by simp [mapping_helper, hm]⟩

theorem int_lift_no_prog : ∀ (v : JValue) (so2 : StackObjects) (kw : Kwargs) (m : String),
    int_lift v so2 kw ≠ .error (.programmingError m) := by
  intro v so2 kw m
  cases v <;> simp [int_lift, lift_helper, integer_helper, isinstance_int]

theorem claim8_witness :
    ∃ m, mapping_helper true (integer_as_string_key none none none none) int_lift
      (.dict [("1", .int 1), ("01", .int 2)]) so0 [] = .error (.invalidInput m) :=
  claim8_mapping_duplicate_keys true (integer_as_string_key none none none none)
    int_lift (fun _ => "1") [("1", .int 1), ("01", .int 2)] so0 []
    (by intro k hk; fin_cases hk <;> rfl)
    (fun v so2 m => int_lift_no_prog v so2 [] m)
    (by decide)

/-- C4 (counterexample): validation is NOT idempotent.  A node with a
MultipleChoiceSelection field at its constructor defaults (default=None,
null=True) validates the empty map to x: null, because defaults are
emitted without being passed through the field's validator; validating
that canonical result again sends null through the field's validator,
which normalizes it to [], so the second pass returns a different tree. -/
theorem claim4_counterexample :
    node_validate spec_mcs (.dict []) so0 [] = .ok (.dict [("x", .null)], so0) ∧
    node_validate spec_mcs (.dict [("x", .null)]) so0 [] =
      .ok (.dict [("x", .list [])], so0) ∧
    JValue.dict [("x", .null)] ≠ JValue.dict [("x", .list [])] := by
  refine ⟨rfl, rfl, ?_⟩
  simp

/-! ### C4: conditional idempotence of the base Node.validate -/

theorem process_field_idem {n : String} {f : FieldSpec} {entries : List (String × JValue)}
    {so so1 : StackObjects} {kw : Kwargs} {o : Option (String × JValue)}
    (hst : f.dont_auto_validate = false → StableField f.validateFn kw)
    (hdf : f.dont_auto_validate = false → f.required = false →
      f.dont_print_default = false → DefaultFix f kw)
    (h : process_field n f entries so kw = .ok (o, so1))
    (entries2 : List (String × JValue))
    (hagree : lookupA n entries2 = o.map Prod.snd) :
    ∀ so2, ∃ so3, process_field n f entries2 so2 kw = .ok (o, so3) := by
  intro so2
  by_cases hda : f.dont_auto_validate = true
  · simp only [process_field, hda, if_true, Except.ok.injEq, Prod.mk.injEq] at h
    obtain ⟨ho, _⟩ := h
    exact ⟨so2, by simp only [process_field, hda, if_true, ho]⟩
  · have hda' : f.dont_auto_validate = false := Bool.eq_false_iff.mpr hda
    cases hlk : lookupA n entries with
    | some v =>
      cases hv : f.validateFn v (trace_push so n v) kw with
      | error e =>
        simp [process_field, hda', hlk, hv] at h
      | ok p =>
        obtain ⟨w, soX⟩ := p
        by_cases hnull : field_null_check f w = true
        · simp [process_field, hda', hlk, hv, hnull] at h
        · have hnull' : field_null_check f w = false := Bool.eq_false_iff.mpr hnull
          simp only [process_field, hda', hlk, hv, hnull', Bool.false_eq_true, if_false,
                     Except.ok.injEq, Prod.mk.injEq] at h
          obtain ⟨ho, _⟩ := h
          subst ho
          have hag2 : lookupA n entries2 = some w := hagree
          obtain ⟨so3, hrun2⟩ := hst hda' v (trace_push so n v) w soX hv (trace_push so2 n w)
          refine ⟨trace_pop so3 so2.current_object, ?_⟩
          simp only [process_field, hda', hag2, hrun2, hnull', Bool.false_eq_true, if_false]
    | none =>
      by_cases hreq : f.required = true
      · simp [process_field, hda', hlk, hreq] at h
      · have hreq' : f.required = false := Bool.eq_false_iff.mpr hreq
        by_cases hdpd : f.dont_print_default = true
        · simp only [process_field, hda', hlk, hreq', hdpd, Bool.false_eq_true, if_false,
                     Bool.not_true, Except.ok.injEq, Prod.mk.injEq] at h
          obtain ⟨ho, _⟩ := h
          have hag2 : lookupA n entries2 = none := by rw [hagree, ← ho]; rfl
          refine ⟨so2, ?_⟩
          simp only [process_field, hda', hag2, hreq', hdpd, Bool.false_eq_true, if_false,
                     Bool.not_true, ho]
        · have hdpd' : f.dont_print_default = false := Bool.eq_false_iff.mpr hdpd
          by_cases hni : default_null_check f = true
          · simp [process_field, hda', hlk, hreq', hdpd', hni] at h
          · have hni' : default_null_check f = false := Bool.eq_false_iff.mpr hni
            simp only [process_field, hda', hlk, hreq', hdpd', hni', Bool.false_eq_true,
                       if_false, Bool.not_false, eq_self_iff_true, if_true,
                       Except.ok.injEq, Prod.mk.injEq] at h
            obtain ⟨ho, _⟩ := h
            subst ho
            have hag2 : lookupA n entries2 = some f.defaultVal := hagree
            obtain ⟨so3, hrun2⟩ := hdf hda' hreq' hdpd' (trace_push so2 n f.defaultVal)
            have hfnc : field_null_check f f.defaultVal = false := by
              simp only [field_null_check, hdpd', Bool.not_false, Bool.true_and]
              simpa [default_null_check] using hni'
            refine ⟨trace_pop so3 so2.current_object, ?_⟩
            simp only [process_field, hda', hag2, hrun2, hfnc, Bool.false_eq_true, if_false]

theorem validate_fields_idem (kw : Kwargs) :
    ∀ fields : List (String × FieldSpec),
    (fields.map Prod.fst).Nodup →
    (∀ p ∈ fields, p.2.dont_auto_validate = false → StableField p.2.validateFn kw) →
    (∀ p ∈ fields, p.2.dont_auto_validate = false → p.2.required = false →
      p.2.dont_print_default = false → DefaultFix p.2 kw) →
    ∀ (entries : List (String × JValue)) (so : StackObjects) (res : List (String × JValue))
      (so' : StackObjects),
    validate_fields fields entries so kw = .ok (res, so') →
    ∀ entries2 : List (String × JValue),
      (∀ m ∈ fields.map Prod.fst, lookupA m entries2 = lookupA m res) →
    ∀ so2, ∃ so3, validate_fields fields entries2 so2 kw = .ok (res, so3) := by
  intro fields
  induction fields with
  | nil =>
    intro _ _ _ entries so res so' h entries2 _ so2
    simp only [validate_fields, Except.ok.injEq, Prod.mk.injEq] at h
    obtain ⟨h1, _⟩ := h
    refine ⟨so2, ?_⟩
    simp only [validate_fields]
    rw [← h1]
  | cons nf rest ih =>
    intro hnd hst hdf entries so res so' h entries2 hagree so2
    obtain ⟨n, f⟩ := nf
    rw [List.map_cons, List.nodup_cons] at hnd
    obtain ⟨hnin, hnd'⟩ := hnd
    cases hp : process_field n f entries so kw with
    | error e => simp [validate_fields, hp] at h
    | ok p1 =>
      obtain ⟨o, so1⟩ := p1
      cases hr : validate_fields rest entries so1 kw with
      | error e => simp [validate_fields, hp, hr] at h
      | ok p2 =>
        obtain ⟨res2, so2b⟩ := p2
        simp only [validate_fields, hp, hr, Except.ok.injEq, Prod.mk.injEq] at h
        obtain ⟨hres, _⟩ := h
        subst hres
        have hsubr := validate_fields_keys hr
        have hnres2 : n ∉ res2.map Prod.fst := fun hm => hnin (hsubr.subset hm)
        have hag_head : lookupA n entries2 = o.map Prod.snd := by
          rw [hagree n (by simp)]
          cases o with
          | none =>
            simp only [Option.toList, List.nil_append]
            exact (lookupA_eq_none_iff _ _).mpr hnres2
          | some pr =>
            have hpk := process_field_key hp pr rfl
            simp only [Option.toList, List.cons_append, List.nil_append, lookupA]
            rw [if_pos hpk]
            rfl
        obtain ⟨so3, hhead2⟩ := process_field_idem (hst (n, f) (by simp))
          (hdf (n, f) (by simp)) hp entries2 hag_head so2
        have hag_rest : ∀ m ∈ rest.map Prod.fst, lookupA m entries2 = lookupA m res2 := by
          intro m hm
          rw [hagree m (by simp [hm])]
          cases o with
          | none => simp [Option.toList]
          | some pr =>
            have hpk := process_field_key hp pr rfl
            have hmn : pr.1 ≠ m := by
              rw [hpk]
              intro hc
              exact hnin (hc ▸ hm)
            simp only [Option.toList, List.cons_append, List.nil_append, lookupA, hmn, if_false]
            rfl
        obtain ⟨so4, hrest2⟩ := ih hnd'
          (fun p hp' => hst p (List.mem_cons_of_mem _ hp'))
          (fun p hp' => hdf p (List.mem_cons_of_mem _ hp'))
          entries so1 res2 so2b hr entries2 hag_rest so3
        refine ⟨so4, ?_⟩
        simp only [validate_fields, hhead2, hrest2]

theorem node_validate_shortform_ok_inv {spec : NodeSpec} {v : JValue} {so : StackObjects}
    {kw : Kwargs} {r : JValue} {so' : StackObjects}
    (hnd : (spec.fields.map Prod.fst).Nodup)
    (h : node_validate_shortform spec v so kw = .ok (r, so')) :
    ∃ res entries1 soA, r = .dict res ∧
      (res.map Prod.fst).Sublist (spec.fields.map Prod.fst) ∧
      validate_fields spec.fields entries1 soA kw = .ok (res, so') := by
  cases hsf : spec.shortform with
  | none => simp [node_validate_shortform, hsf] at h
  | some sf =>
    cases hfv : sf.field_validate_fn v with
    | error e => simp [node_validate_shortform, hsf, hfv] at h
    | ok u =>
      cases hconv : sf.conversion v
      case dict es =>
        simp only [node_validate_shortform, hsf, hfv, hconv] at h
        obtain ⟨res, hr, hsub, hvf⟩ := node_validate_dict_shape hnd h
        exact ⟨res, es, _, hr, hsub, hvf⟩
      all_goals simp [node_validate_shortform, hsf, hfv, hconv] at h

theorem node_validate_ok_inv {spec : NodeSpec} {obj : JValue} {so : StackObjects}
    {kw : Kwargs} {r : JValue} {so' : StackObjects}
    (hnd : (spec.fields.map Prod.fst).Nodup)
    (h : node_validate spec obj so kw = .ok (r, so')) :
    ∃ res entries1 soA, r = .dict res ∧
      (res.map Prod.fst).Sublist (spec.fields.map Prod.fst) ∧
      validate_fields spec.fields entries1 soA kw = .ok (res, so') := by
  cases obj
  case dict entries =>
    simp only [node_validate] at h
    obtain ⟨res, hr, hsub, hvf⟩ := node_validate_dict_shape hnd h
    exact ⟨res, entries, so, hr, hsub, hvf⟩
  all_goals
    simp only [node_validate] at h
    exact node_validate_shortform_ok_inv hnd h

/-- C4 (amended): validation by the base Node.validate is idempotent
PROVIDED every field validator is stable on its own outputs and every
emitted default value is a fixed point of its field's validator.  The
engine does not enforce the second condition (defaults are emitted
without validation), and MultipleChoiceSelection with its default null
violates it, which is exactly the counterexample. -/
theorem claim4_amended (spec : NodeSpec) (kw : Kwargs)
    (hnd : (spec.fields.map Prod.fst).Nodup)
    (hst : ∀ p ∈ spec.fields, p.2.dont_auto_validate = false → StableField p.2.validateFn kw)
    (hdf : ∀ p ∈ spec.fields, p.2.dont_auto_validate = false → p.2.required = false →
      p.2.dont_print_default = false → DefaultFix p.2 kw) :
    ∀ (obj : JValue) (so : StackObjects) (c : JValue) (so' : StackObjects),
    node_validate spec obj so kw = .ok (c, so') →
    ∀ so2, ∃ so3, node_validate spec c so2 kw = .ok (c, so3) := by
  intro obj so c so' h so2
  obtain ⟨res, entries1, soA, rfl, hsub, hvf⟩ := node_validate_ok_inv hnd h
  have hkeys : ∀ k ∈ res.map Prod.fst, (spec.fields.map Prod.fst).contains k = true := by
    intro k hk
    simpa using hsub.subset hk
  have hck := @check_keys_ok_of_subset (spec.fields.map Prod.fst)
    spec.quietly_drop_superfluous_fields spec.has_choice_type (res.map Prod.fst) hkeys
  obtain ⟨so3, hvf2⟩ := validate_fields_idem kw spec.fields hnd hst hdf entries1 soA res so'
    hvf res (fun m _ => rfl) so2
  refine ⟨so3, ?_⟩
  simp only [node_validate, node_validate_dict, hck, hvf2, sort_fields_eq hnd hsub]

theorem integer_helper_ok_eq : ∀ {mn mx : Option Int} {v u : JValue},
    integer_helper mn mx v = .ok u → u = v := by
  intro mn mx v u h
  unfold integer_helper at h
  repeat' split at h
  all_goals first
    | exact Except.noConfusion h
    | (injection h with h1; exact h1.symm)

theorem int_lift_stable (kw : Kwargs) : StableField int_lift kw := by
  intro v so w so' h so2
  unfold int_lift lift_helper at h
  cases hv : integer_helper none none v with
  | error e => rw [hv] at h; exact Except.noConfusion h
  | ok u =>
    rw [hv] at h
    simp only [Except.ok.injEq, Prod.mk.injEq] at h
    obtain ⟨hw, _⟩ := h
    subst hw
    have hu : u = v := integer_helper_ok_eq hv
    subst hu
    refine ⟨so2, ?_⟩
    unfold int_lift lift_helper
    rw [hv]

theorem claim4_witness :
    ∃ so3, node_validate spec_int1 (.dict [("a", .int 5)]) so0 [] =
      .ok (.dict [("a", .int 5)], so3) :=
  claim4_amended spec_int1 [] (by decide)
    (by
      intro p hp hda
      have hp2 : p = ("a", int_required_field) := by simpa [spec_int1] using hp
      subst hp2
      exact int_lift_stable [])
    (by
      intro p hp hda hreq
      have hp2 : p = ("a", int_required_field) := by simpa [spec_int1] using hp
      subst hp2
      simp [int_required_field] at hreq)
    (.dict [("a", .int 5)]) so0 (.dict [("a", .int 5)]) so0 rfl so0
